import Mathlib

/-!
Shallow embedding of the shooter-game simulation engine
(source file: src/gameModel.ts).

JavaScript numbers are modelled as rationals, timestamps and
millisecond timers included.  Calls to Math.random() are modelled by
explicit oracle inputs (a rational draw in [0, 1) per call site), and
the Date.now()/Math.random() fragments of identity strings are
modelled by oracle-supplied strings.  Each method of the GameModel
class becomes a function from the model state (plus oracle inputs) to
the new model state.
-/

namespace Shooter

/-- The Side type of the source has the single value "right". -/
inductive Side where
  | right
deriving DecidableEq

def sideName : Side → String
  | Side.right => "right"

structure Position where
  row : Int
  col : Int
deriving DecidableEq

structure Chicken where
  id : String
  side : Side
  line : Nat
  seat : Nat
  nextEggMs : ℚ
  extraTimer : ℚ
deriving DecidableEq

structure Egg where
  id : String
  side : Side
  line : Nat
  progress : ℚ
  travelDistance : ℚ
  startPosition : ℚ
deriving DecidableEq

/-- The snapshot returned by update/getState. -/
structure GameState where
  chickens : List Chicken
  eggs : List Egg
  wolfPosition : Position
  wolfTarget : Position
  caughtEggs : Nat
  droppedEggs : Nat
  elapsedMs : ℚ
  gameOver : Bool
deriving DecidableEq

def LINES_PER_SIDE : Nat := 4

def SEATS_PER_LINE : Nat := 3

def MIN_INITIAL_CHICKENS : ℚ := 2

def MAX_INITIAL_CHICKENS : ℚ := 3

def EGG_SPEED_UNITS_PER_SECOND : ℚ := 1 / 10

def EGG_COOLDOWN_RANGE_MS : ℚ × ℚ := (10000, 20000)

def INITIAL_EGG_SPAWN_MS : ℚ := 3000

def CHICKEN_SPAWN_RANGE_MS : ℚ × ℚ := (5000, 10000)

def EXTRA_TIMER_MS : ℚ := 10000

def MAX_DROPPED_EGGS : Nat := 3

def WOLF_STEP_MS : ℚ := 240

def DROP_POSITION : Side → ℚ := fun _ => 0

def SEAT_TRAVEL_RATIOS : List ℚ := [1, 9/10, 8/10]

def WOLF_START_ROW : Int := ((LINES_PER_SIDE : Int) - 1) / 2

def WOLF_COL : Int := 0

/-- randomBetween(min, max) with the Math.random() draw passed as r. -/
def randomBetween (lo hi r : ℚ) : ℚ := r * (hi - lo) + lo

def randomDelay (range : ℚ × ℚ) (r : ℚ) : ℚ := randomBetween range.1 range.2 r

def normalizedSeatIndex (seat : Nat) : Int := (SEATS_PER_LINE : Int) - 1 - seat

def travelDistanceForSeat (seat : Nat) : ℚ :=
  let indexFromDrop := normalizedSeatIndex seat
  let boundedIndex := min ((SEAT_TRAVEL_RATIOS.length : Int) - 1) (max 0 indexFromDrop)
  SEAT_TRAVEL_RATIOS.getD boundedIndex.toNat 0

def spawnPositionForSeat (side : Side) (seat : Nat) : ℚ :=
  let dropPosition := DROP_POSITION side
  let distance := travelDistanceForSeat seat
  if dropPosition = 1 then 1 - distance else distance

def catchPositionForLine (_side : Side) (line : Nat) : Position :=
  { row := line, col := WOLF_COL }

structure SeatPosition where
  side : Side
  line : Nat
  seat : Nat
deriving DecidableEq

/-- The full private state of the GameModel class. -/
structure GameModel where
  chickens : List Chicken
  eggs : List Egg
  wolfPosition : Position
  wolfTarget : Position
  caughtEggs : Nat
  droppedEggs : Nat
  gameOver : Bool
  startTime : ℚ
  elapsedMs : ℚ
  lastUpdate : ℚ
  nextChickenSpawnMs : ℚ
  wolfMoveAccumulator : ℚ
deriving DecidableEq

/-- Oracle inputs consumed by one update tick. -/
structure UpdateOracle where
  spawnSeat : ℚ
  spawnDelay : ℚ
  spawnId : String
  nextSpawn : ℚ
  eggDraw : Nat → ℚ
  eggId : Nat → String

/-- Oracle inputs consumed by the constructor / reset. -/
structure InitOracle where
  countDraw : ℚ
  seatDraw : Nat → ℚ
  delayDraw : Nat → ℚ
  idDraw : Nat → String
  nextSpawnDraw : ℚ

/-- The string key of a seat as built in pickRandomFreeSeat. -/
def seatKey (side : Side) (line seat : Nat) : String :=
  sideName side ++ "-" ++ toString line ++ "-" ++ toString seat

/-- The nested loops of pickRandomFreeSeat enumerate these seats. -/
def allSeats : List SeatPosition :=
  (List.range LINES_PER_SIDE).flatMap fun line =>
    (List.range SEATS_PER_LINE).map fun seat =>
      { side := Side.right, line := line, seat := seat }

def pickRandomFreeSeat (chickens : List Chicken) (r : ℚ) : Option SeatPosition :=
  let occupied := chickens.map fun c => seatKey c.side c.line c.seat
  let openSeats := allSeats.filter fun s => !(occupied.contains (seatKey s.side s.line s.seat))
  if openSeats.length = 0 then none
  else openSeats.get? (⌊r * (openSeats.length : ℚ)⌋).toNat

def spawnRandomChicken (rSeat rDelay : ℚ) (idStr : String) (st : GameModel) : GameModel :=
  match pickRandomFreeSeat st.chickens rSeat with
  | none => st
  | some seat =>
    { st with chickens := st.chickens ++
        [{ id := seatKey seat.side seat.line seat.seat ++ "-" ++ idStr
           side := seat.side
           line := seat.line
           seat := seat.seat
           nextEggMs := randomDelay EGG_COOLDOWN_RANGE_MS rDelay
           extraTimer := 0 }] }

def removeChicken (id : String) (st : GameModel) : GameModel :=
  { st with chickens := st.chickens.filter fun chicken => chicken.id ≠ id }

def removeEgg (id : String) (st : GameModel) : GameModel :=
  { st with eggs := st.eggs.filter fun egg => egg.id ≠ id }

/-- The egg pushed by spawnEgg(chicken); the Date.now()/random suffix of
its identity string is supplied by the oracle string. -/
def spawnEggFor (chicken : Chicken) (idStr : String) : Egg :=
  { id := chicken.id ++ "-egg-" ++ idStr
    side := chicken.side
    line := chicken.line
    progress := 0
    travelDistance := travelDistanceForSeat chicken.seat
    startPosition := spawnPositionForSeat chicken.side chicken.seat }

def spawnEgg (chicken : Chicken) (idStr : String) (st : GameModel) : GameModel :=
  { st with eggs := st.eggs ++ [spawnEggFor chicken idStr] }

/-- In shootChicken the found chicken object is mutated in place; here the
first chicken with the given id gets its extraTimer set. -/
def markShot (id : String) : List Chicken → List Chicken
  | [] => []
  | c :: rest =>
    if c.id = id then { c with extraTimer := EXTRA_TIMER_MS } :: rest
    else c :: markShot id rest

def shootChicken (chickenId : String) (eggIdStr : String) (st : GameModel) : GameModel :=
  match st.chickens.find? (fun item => item.id = chickenId) with
  | none => st
  | some chicken =>
    let st1 := spawnEgg chicken eggIdStr st
    { st1 with chickens := markShot chickenId st1.chickens }

def updateChickenSpawns (delta : ℚ) (o : UpdateOracle) (st : GameModel) : GameModel :=
  let st1 := { st with nextChickenSpawnMs := st.nextChickenSpawnMs - delta }
  if 0 < st1.nextChickenSpawnMs then st1
  else
    let st2 := spawnRandomChicken o.spawnSeat o.spawnDelay o.spawnId st1
    { st2 with nextChickenSpawnMs := randomDelay CHICKEN_SPAWN_RANGE_MS o.nextSpawn }

/-- The body of the forEach of updateChickenEggs for the chicken at
index i: the updated chicken, and the egg it emits when its timer fires. -/
def chickenEggStep (delta : ℚ) (o : UpdateOracle) (i : Nat) (chicken : Chicken) :
    Chicken × Option Egg :=
  let c1 := { chicken with
    extraTimer := max 0 (chicken.extraTimer - delta)
    nextEggMs := chicken.nextEggMs - delta }
  if 0 < c1.nextEggMs then (c1, none)
  else ({ c1 with nextEggMs := randomDelay EGG_COOLDOWN_RANGE_MS (o.eggDraw i) },
        some (spawnEggFor c1 (o.eggId i)))

def updateChickenEggs (delta : ℚ) (o : UpdateOracle) (st : GameModel) : GameModel :=
  let results := st.chickens.enum.map fun p => chickenEggStep delta o p.1 p.2
  { st with
    chickens := results.map fun p => p.1
    eggs := st.eggs ++ results.filterMap fun p => p.2 }

def handleEggDrop (egg : Egg) (st : GameModel) : GameModel :=
  let catchPos := catchPositionForLine egg.side egg.line
  let wolfCatching := st.wolfPosition.row = catchPos.row ∧ st.wolfPosition.col = catchPos.col
  if wolfCatching then { st with caughtEggs := st.caughtEggs + 1 }
  else
    let st1 := { st with droppedEggs := st.droppedEggs + 1 }
    if MAX_DROPPED_EGGS ≤ st1.droppedEggs then { st1 with gameOver := true } else st1

/-- One iteration of the forEach of updateEggs: the accumulator is the
evolving model state together with the survivors list. -/
def eggStep (delta : ℚ) (acc : GameModel × List Egg) (egg : Egg) : GameModel × List Egg :=
  let progress := egg.progress + delta / 1000 * EGG_SPEED_UNITS_PER_SECOND
  if egg.travelDistance ≤ progress then (handleEggDrop egg acc.1, acc.2)
  else (acc.1, acc.2 ++ [{ egg with progress := progress }])

def updateEggs (delta : ℚ) (st : GameModel) : GameModel :=
  let r := st.eggs.foldl (eggStep delta) (st, [])
  { r.1 with eggs := r.2 }

def timeToDrop (egg : Egg) : ℚ :=
  let remainingDistance := max 0 (egg.travelDistance - egg.progress)
  remainingDistance / EGG_SPEED_UNITS_PER_SECOND

/-- The target-selection scan of updateWolf: the accumulator carries
bestEgg and bestTimeLeft. -/
def bestEggScan (eggs : List Egg) (b : Egg × ℚ) : Egg × ℚ :=
  eggs.foldl
    (fun b egg =>
      let timeLeft := timeToDrop egg
      if timeLeft < b.2 then (egg, timeLeft) else b)
    b

def selectTarget (eggs : List Egg) : Position :=
  match eggs with
  | [] => { row := WOLF_START_ROW, col := WOLF_COL }
  | e0 :: _ =>
    let best := bestEggScan eggs (e0, timeToDrop e0)
    catchPositionForLine best.1.side best.1.line

def stepWolf (target pos : Position) : Position :=
  if pos.row = target.row ∧ pos.col = target.col then pos
  else if pos.row ≠ target.row then
    { pos with row := pos.row + if pos.row < target.row then 1 else -1 }
  else if pos.col ≠ target.col then
    { pos with col := pos.col + if pos.col < target.col then 1 else -1 }
  else pos

/-- The while loop of updateWolf draining the accumulator. -/
def wolfLoop (target : Position) (pos : Position) (acc : ℚ) : Position × ℚ :=
  if h : WOLF_STEP_MS ≤ acc then
    wolfLoop target (stepWolf target pos) (acc - WOLF_STEP_MS)
  else (pos, acc)
termination_by (⌊acc / WOLF_STEP_MS⌋).toNat
decreasing_by
  have hpos : (0 : ℚ) < WOLF_STEP_MS := by norm_num [WOLF_STEP_MS]
  have e1 : (acc - WOLF_STEP_MS) / WOLF_STEP_MS = acc / WOLF_STEP_MS - 1 := by
    field_simp
  have e2 : ⌊acc / WOLF_STEP_MS - (1 : ℚ)⌋ = ⌊acc / WOLF_STEP_MS⌋ - 1 := by
    have := Int.floor_sub_int (acc / WOLF_STEP_MS) 1
    simpa using this
  have h1 : 1 ≤ ⌊acc / WOLF_STEP_MS⌋ := by
    rw [Int.le_floor]
    push_cast
    exact (one_le_div hpos).mpr h
  rw [e1, e2]
  omega

def updateWolf (delta : ℚ) (st : GameModel) : GameModel :=
  let target := selectTarget st.eggs
  let r := wolfLoop target st.wolfPosition (st.wolfMoveAccumulator + delta)
  { st with wolfTarget := target, wolfPosition := r.1, wolfMoveAccumulator := r.2 }

/-- The delta computation at the head of update. -/
def clampedDelta (now lastUpdate : ℚ) : ℚ := max 0 (min 1000 (now - lastUpdate))

def update (now : ℚ) (o : UpdateOracle) (st : GameModel) : GameModel :=
  let delta := clampedDelta now st.lastUpdate
  let st1 := { st with lastUpdate := now }
  if st1.gameOver then st1
  else
    updateWolf delta
      (updateEggs delta
        (updateChickenEggs delta o
          (updateChickenSpawns delta o
            { st1 with elapsedMs := max 0 (now - st1.startTime) })))

def getState (st : GameModel) : GameState :=
  { chickens := st.chickens
    eggs := st.eggs
    wolfPosition := st.wolfPosition
    wolfTarget := st.wolfTarget
    caughtEggs := st.caughtEggs
    droppedEggs := st.droppedEggs
    elapsedMs := st.elapsedMs
    gameOver := st.gameOver }

/-- Math.min over a nonempty spread argument list. -/
def minList : List ℚ → ℚ
  | [] => 0
  | x :: xs => xs.foldl min x

/-- The spawn loop at the head of seedInitialChickens, consuming one
oracle entry per iteration. -/
def spawnLoop (o : InitOracle) (total : Nat) (st : GameModel) : GameModel :=
  (List.range total).foldl
    (fun st i => spawnRandomChicken (o.seatDraw i) (o.delayDraw i) (o.idDraw i) st) st

def seedSpawnPhase (o : InitOracle) (st : GameModel) : GameModel :=
  let total := (⌊randomBetween MIN_INITIAL_CHICKENS (MAX_INITIAL_CHICKENS + 1) o.countDraw⌋).toNat
  spawnLoop o total st

def seedInitialChickens (o : InitOracle) (st : GameModel) : GameModel :=
  let st1 := seedSpawnPhase o st
  if 0 < st1.chickens.length then
    let minTimer := minList (st1.chickens.map fun chicken => chicken.nextEggMs)
    let reduction := minTimer - INITIAL_EGG_SPAWN_MS
    if 0 < reduction then
      { st1 with chickens := st1.chickens.map fun chicken =>
          { chicken with nextEggMs := chicken.nextEggMs - reduction } }
    else st1
  else st1

/-- The constructor: field initializers followed by seedInitialChickens.
The construction timestamp performance.now() is the argument now. -/
def initModel (now : ℚ) (o : InitOracle) : GameModel :=
  seedInitialChickens o
    { chickens := []
      eggs := []
      wolfPosition := { row := WOLF_START_ROW, col := WOLF_COL }
      wolfTarget := { row := WOLF_START_ROW, col := WOLF_COL }
      caughtEggs := 0
      droppedEggs := 0
      gameOver := false
      startTime := now
      elapsedMs := 0
      lastUpdate := now
      nextChickenSpawnMs := randomDelay CHICKEN_SPAWN_RANGE_MS o.nextSpawnDraw
      wolfMoveAccumulator := 0 }

/-- reset() writes every field back to its startup value and reseeds;
the reset timestamp performance.now() is the argument now. -/
def reset (now : ℚ) (o : InitOracle) (_st : GameModel) : GameModel :=
  initModel now o

/-- The public operations a caller can perform on the engine, with the
oracle inputs each consumes. -/
inductive Op where
  | update (now : ℚ) (o : UpdateOracle)
  | removeChicken (id : String)
  | removeEgg (id : String)
  | shootChicken (id : String) (eggIdStr : String)
  | reset (now : ℚ) (o : InitOracle)

def Op.isReset : Op → Bool
  | Op.reset _ _ => true
  | _ => false

def applyOp : Op → GameModel → GameModel
  | Op.update now o, st => update now o st
  | Op.removeChicken id, st => removeChicken id st
  | Op.removeEgg id, st => removeEgg id st
  | Op.shootChicken id eggIdStr, st => shootChicken id eggIdStr st
  | Op.reset now o, st => reset now o st

/-- States reachable from a freshly constructed engine by any sequence
of public operations. -/
inductive Reachable : GameModel → Prop
  | init (now : ℚ) (o : InitOracle) : Reachable (initModel now o)
  | step (s : GameModel) (op : Op) : Reachable s → Reachable (applyOp op s)

end Shooter

namespace Shooter

/-! ### Sample states and oracles used by witnesses -/

def sampleChicken : Chicken :=
  { id := "a", side := Side.right, line := 0, seat := 0, nextEggMs := 5000, extraTimer := 0 }

def sampleEgg : Egg :=
  { id := "g", side := Side.right, line := 2, progress := 0, travelDistance := 1,
    startPosition := 1 }

def sampleModel : GameModel :=
  { chickens := [sampleChicken], eggs := [sampleEgg],
    wolfPosition := { row := 1, col := 0 }, wolfTarget := { row := 1, col := 0 },
    caughtEggs := 0, droppedEggs := 0, gameOver := false,
    startTime := 0, elapsedMs := 0, lastUpdate := 0,
    nextChickenSpawnMs := 7000, wolfMoveAccumulator := 0 }

def sampleOverModel : GameModel :=
  { sampleModel with droppedEggs := 3, gameOver := true }

def sampleUpdateOracle : UpdateOracle :=
  { spawnSeat := 0, spawnDelay := 0, spawnId := "i", nextSpawn := 0,
    eggDraw := fun _ => 0, eggId := fun _ => "e" }

def sampleInitOracle : InitOracle :=
  { countDraw := 0, seatDraw := fun _ => 0, delayDraw := fun _ => 0,
    idDraw := fun _ => "x", nextSpawnDraw := 0 }

/-! ### Generic list helpers -/

lemma filter_idem {α : Type} (p : α → Bool) (l : List α) :
    (l.filter p).filter p = l.filter p :=
  List.filter_eq_self.mpr fun _ ha => List.of_mem_filter ha

/-! ### C6 -/

/-- C6: if the game-over flag is true then update(now) leaves every
snapshot-visible field (chickens, eggs, wolf position, wolf target,
caught count, dropped count, elapsed time, game-over flag) unchanged and
returns a snapshot equal to the pre-call state. -/
theorem C6_update_frozen_when_gameover (now : ℚ) (o : UpdateOracle) (st : GameModel)
    (h : st.gameOver = true) :
    (update now o st).chickens = st.chickens ∧
    (update now o st).eggs = st.eggs ∧
    (update now o st).wolfPosition = st.wolfPosition ∧
    (update now o st).wolfTarget = st.wolfTarget ∧
    (update now o st).caughtEggs = st.caughtEggs ∧
    (update now o st).droppedEggs = st.droppedEggs ∧
    (update now o st).elapsedMs = st.elapsedMs ∧
    (update now o st).gameOver = true ∧
    getState (update now o st) = getState st := by
  have hu : update now o st = { st with lastUpdate := now } := by
    simp [update, h]
  rw [hu]
  simp [getState, h]

/-- Witness for C6 at a concrete frozen state. -/
theorem C6_witness :
    (update 123 sampleUpdateOracle sampleOverModel).chickens = sampleOverModel.chickens ∧
    (update 123 sampleUpdateOracle sampleOverModel).eggs = sampleOverModel.eggs ∧
    (update 123 sampleUpdateOracle sampleOverModel).wolfPosition = sampleOverModel.wolfPosition ∧
    (update 123 sampleUpdateOracle sampleOverModel).wolfTarget = sampleOverModel.wolfTarget ∧
    (update 123 sampleUpdateOracle sampleOverModel).caughtEggs = sampleOverModel.caughtEggs ∧
    (update 123 sampleUpdateOracle sampleOverModel).droppedEggs = sampleOverModel.droppedEggs ∧
    (update 123 sampleUpdateOracle sampleOverModel).elapsedMs = sampleOverModel.elapsedMs ∧
    (update 123 sampleUpdateOracle sampleOverModel).gameOver = true ∧
    getState (update 123 sampleUpdateOracle sampleOverModel) = getState sampleOverModel :=
  C6_update_frozen_when_gameover 123 sampleUpdateOracle sampleOverModel rfl

/-! ### C9 -/

/-- C9: removing or shooting an absent id is a no-op on the whole engine
state, and removal of a given id is idempotent. -/
theorem C9_removal_noop_idempotent (st : GameModel) (id eggIdStr : String) :
    ((∀ c ∈ st.chickens, c.id ≠ id) → removeChicken id st = st) ∧
    ((∀ e ∈ st.eggs, e.id ≠ id) → removeEgg id st = st) ∧
    ((∀ c ∈ st.chickens, c.id ≠ id) → shootChicken id eggIdStr st = st) ∧
    removeChicken id (removeChicken id st) = removeChicken id st ∧
    removeEgg id (removeEgg id st) = removeEgg id st := by
  refine ⟨?_, ?_, ?_, ?_, ?_⟩
  · intro h
    have hf : st.chickens.filter (fun chicken => !decide (chicken.id = id)) = st.chickens :=
      List.filter_eq_self.mpr fun a ha => by simpa using h a ha
    simp [removeChicken, hf]
  · intro h
    have hf : st.eggs.filter (fun egg => !decide (egg.id = id)) = st.eggs :=
      List.filter_eq_self.mpr fun a ha => by simpa using h a ha
    simp [removeEgg, hf]
  · intro h
    have hf : st.chickens.find? (fun item => item.id = id) = none :=
      List.find?_eq_none.mpr fun a ha => by simpa using h a ha
    simp [shootChicken, hf]
  · simp [removeChicken, filter_idem]
  · simp [removeEgg, filter_idem]

/-- Witness for C9 at a concrete state: id zzz is absent, ids a and g
are present. -/
theorem C9_witness :
    removeChicken "zzz" sampleModel = sampleModel ∧
    removeEgg "zzz" sampleModel = sampleModel ∧
    shootChicken "zzz" "e" sampleModel = sampleModel ∧
    removeChicken "a" (removeChicken "a" sampleModel) = removeChicken "a" sampleModel ∧
    removeEgg "g" (removeEgg "g" sampleModel) = removeEgg "g" sampleModel :=
  ⟨(C9_removal_noop_idempotent sampleModel "zzz" "e").1 (by decide),
   (C9_removal_noop_idempotent sampleModel "zzz" "e").2.1 (by decide),
   (C9_removal_noop_idempotent sampleModel "zzz" "e").2.2.1 (by decide),
   (C9_removal_noop_idempotent sampleModel "a" "e").2.2.2.1,
   (C9_removal_noop_idempotent sampleModel "g" "e").2.2.2.2⟩

/-! ### C10 -/

lemma markShot_find? (id : String) (l : List Chicken) (c : Chicken)
    (h : l.find? (fun item => item.id = id) = some c) :
    (markShot id l).find? (fun item => item.id = id) =
      some { c with extraTimer := EXTRA_TIMER_MS } := by
  induction l with
  | nil => simp at h
  | cons x rest ih =>
    by_cases hx : x.id = id
    · rw [List.find?_cons_of_pos _ (by simpa using hx)] at h
      cases h
      simp [markShot, hx, List.find?_cons_of_pos]
    · rw [List.find?_cons_of_neg _ (by simpa using hx)] at h
      simp only [markShot, if_neg hx]
      rw [List.find?_cons_of_neg _ (by simpa using hx)]
      exact ih h

/-- C10: player mutations are not gated by the game-over flag: with
game-over true, shootChicken on a present id still appends the egg and
sets that chicken's extra-alert-timer to 10000 ms, and
removeChicken/removeEgg still delete every entity with the given id. -/
theorem C10_mutations_not_gated (st : GameModel) (h : st.gameOver = true) :
    (∀ id eggIdStr c, st.chickens.find? (fun item => item.id = id) = some c →
      (shootChicken id eggIdStr st).eggs = st.eggs ++ [spawnEggFor c eggIdStr] ∧
      (shootChicken id eggIdStr st).chickens.find? (fun item => item.id = id) =
        some { c with extraTimer := EXTRA_TIMER_MS }) ∧
    (∀ id, ∀ x ∈ (removeChicken id st).chickens, x.id ≠ id) ∧
    (∀ id, ∀ x ∈ (removeEgg id st).eggs, x.id ≠ id) ∧
    EXTRA_TIMER_MS = 10000 := by
  refine ⟨?_, ?_, ?_, rfl⟩
  · intro id eggIdStr c hfind
    constructor
    · simp [shootChicken, hfind, spawnEgg]
    · simp only [shootChicken, hfind, spawnEgg]
      exact markShot_find? id st.chickens c hfind
  · intro id x hx
    have := List.mem_filter.mp hx
    simpa using this.2
  · intro id x hx
    have := List.mem_filter.mp hx
    simpa using this.2

/-- Witness for C10 at a concrete frozen state with chicken id a. -/
theorem C10_witness :
    ((shootChicken "a" "e" sampleOverModel).eggs =
      sampleOverModel.eggs ++ [spawnEggFor sampleChicken "e"] ∧
     (shootChicken "a" "e" sampleOverModel).chickens.find? (fun item => item.id = "a") =
      some { sampleChicken with extraTimer := EXTRA_TIMER_MS }) ∧
    (∀ x ∈ (removeChicken "a" sampleOverModel).chickens, x.id ≠ "a") ∧
    (∀ x ∈ (removeEgg "g" sampleOverModel).eggs, x.id ≠ "g") :=
  ⟨(C10_mutations_not_gated sampleOverModel rfl).1 "a" "e" sampleChicken (by decide),
   (C10_mutations_not_gated sampleOverModel rfl).2.1 "a",
   (C10_mutations_not_gated sampleOverModel rfl).2.2.1 "g"⟩

end Shooter

namespace Shooter

/-! ### The updateEggs tick: closed forms (claims C1, C7) -/

/-- The progress integration applied to one egg by updateEggs. -/
def integrateEgg (delta : ℚ) (egg : Egg) : Egg :=
  { egg with progress := egg.progress + delta / 1000 * EGG_SPEED_UNITS_PER_SECOND }

/-- The wolfCatching test of handleEggDrop. -/
def wolfCatches (w : Position) (egg : Egg) : Bool :=
  decide (w.row = (catchPositionForLine egg.side egg.line).row ∧
          w.col = (catchPositionForLine egg.side egg.line).col)

lemma wolfCatches_integrate (w : Position) (delta : ℚ) (egg : Egg) :
    wolfCatches w (integrateEgg delta egg) = wolfCatches w egg := rfl

lemma eggStep_eq (delta : ℚ) (acc : GameModel × List Egg) (egg : Egg) :
    eggStep delta acc egg =
      if egg.travelDistance ≤ egg.progress + delta / 1000 * EGG_SPEED_UNITS_PER_SECOND
      then (handleEggDrop egg acc.1, acc.2)
      else (acc.1, acc.2 ++ [integrateEgg delta egg]) := rfl

lemma handleEggDrop_eq (egg : Egg) (st : GameModel) :
    handleEggDrop egg st =
      if wolfCatches st.wolfPosition egg then { st with caughtEggs := st.caughtEggs + 1 }
      else { st with droppedEggs := st.droppedEggs + 1,
                     gameOver :=
                       if MAX_DROPPED_EGGS ≤ st.droppedEggs + 1 then true else st.gameOver } := by
  by_cases h : st.wolfPosition.row = (catchPositionForLine egg.side egg.line).row ∧
      st.wolfPosition.col = (catchPositionForLine egg.side egg.line).col
  · have hb : wolfCatches st.wolfPosition egg = true := decide_eq_true h
    simp [handleEggDrop, hb, h]
  · have hb : wolfCatches st.wolfPosition egg = false := by
      simp only [wolfCatches, decide_eq_false_iff_not]
      exact h
    simp only [handleEggDrop, hb, Bool.false_eq_true, if_false]
    rw [if_neg h]
    split <;> rfl

/-- The fields of the model that the updateEggs fold never writes. -/
def eggFrame (a b : GameModel) : Prop :=
  a.chickens = b.chickens ∧ a.eggs = b.eggs ∧ a.wolfPosition = b.wolfPosition ∧
  a.wolfTarget = b.wolfTarget ∧ a.startTime = b.startTime ∧ a.elapsedMs = b.elapsedMs ∧
  a.lastUpdate = b.lastUpdate ∧ a.nextChickenSpawnMs = b.nextChickenSpawnMs ∧
  a.wolfMoveAccumulator = b.wolfMoveAccumulator

lemma eggFrame_refl (a : GameModel) : eggFrame a a :=
  ⟨rfl, rfl, rfl, rfl, rfl, rfl, rfl, rfl, rfl⟩

lemma eggFrame_trans {a b c : GameModel} (h1 : eggFrame a b) (h2 : eggFrame b c) :
    eggFrame a c := by
  obtain ⟨a1, a2, a3, a4, a5, a6, a7, a8, a9⟩ := h1
  obtain ⟨b1, b2, b3, b4, b5, b6, b7, b8, b9⟩ := h2
  exact ⟨a1.trans b1, a2.trans b2, a3.trans b3, a4.trans b4, a5.trans b5,
         a6.trans b6, a7.trans b7, a8.trans b8, a9.trans b9⟩

lemma handleEggDrop_frame (egg : Egg) (st : GameModel) :
    eggFrame (handleEggDrop egg st) st := by
  rw [handleEggDrop_eq]
  split <;> exact ⟨rfl, rfl, rfl, rfl, rfl, rfl, rfl, rfl, rfl⟩

lemma eggFold_frame (delta : ℚ) (l : List Egg) :
    ∀ (st : GameModel) (es : List Egg),
      eggFrame (l.foldl (eggStep delta) (st, es)).1 st := by
  induction l with
  | nil => intro st es; exact eggFrame_refl st
  | cons x xs ih =>
    intro st es
    rw [List.foldl_cons, eggStep_eq]
    by_cases hland : x.travelDistance ≤ x.progress + delta / 1000 * EGG_SPEED_UNITS_PER_SECOND
    · rw [if_pos hland]
      exact eggFrame_trans (ih (handleEggDrop x st) es) (handleEggDrop_frame x st)
    · rw [if_neg hland]
      exact ih st _

lemma eggFold_survivors (delta : ℚ) (l : List Egg) :
    ∀ (st : GameModel) (es : List Egg),
      (l.foldl (eggStep delta) (st, es)).2 =
        es ++ (l.map (integrateEgg delta)).filter
          (fun e => decide (e.progress < e.travelDistance)) := by
  induction l with
  | nil => intro st es; simp
  | cons x xs ih =>
    intro st es
    rw [List.foldl_cons, eggStep_eq]
    by_cases hland : x.travelDistance ≤ x.progress + delta / 1000 * EGG_SPEED_UNITS_PER_SECOND
    · rw [if_pos hland, ih]
      have hn : ¬ ((integrateEgg delta x).progress < (integrateEgg delta x).travelDistance) := by
        simp only [integrateEgg]
        exact not_lt.mpr hland
      simp [hn]
    · rw [if_neg hland, ih]
      have hp : (integrateEgg delta x).progress < (integrateEgg delta x).travelDistance := by
        simp only [integrateEgg]
        exact lt_of_not_le hland
      simp [hp]

lemma eggFold_caught (delta : ℚ) (l : List Egg) :
    ∀ (st : GameModel) (es : List Egg),
      (l.foldl (eggStep delta) (st, es)).1.caughtEggs =
        st.caughtEggs +
          ((l.map (integrateEgg delta)).filter
            (fun e => decide (e.travelDistance ≤ e.progress) &&
                      wolfCatches st.wolfPosition e)).length := by
  induction l with
  | nil => intro st es; simp
  | cons x xs ih =>
    intro st es
    rw [List.foldl_cons, eggStep_eq]
    by_cases hland : x.travelDistance ≤ x.progress + delta / 1000 * EGG_SPEED_UNITS_PER_SECOND
    · rw [if_pos hland]
      have hT : decide ((integrateEgg delta x).travelDistance ≤
          (integrateEgg delta x).progress) = true := decide_eq_true hland
      rw [handleEggDrop_eq]
      by_cases hc : wolfCatches st.wolfPosition x = true
      · rw [if_pos hc, ih]
        have hcond : (decide ((integrateEgg delta x).travelDistance ≤
            (integrateEgg delta x).progress) &&
            wolfCatches st.wolfPosition (integrateEgg delta x)) = true := by
          rw [hT, wolfCatches_integrate, hc]; rfl
        show st.caughtEggs + 1 +
            ((xs.map (integrateEgg delta)).filter
              (fun e => decide (e.travelDistance ≤ e.progress) &&
                wolfCatches st.wolfPosition e)).length =
          st.caughtEggs +
            (((x :: xs).map (integrateEgg delta)).filter
              (fun e => decide (e.travelDistance ≤ e.progress) &&
                wolfCatches st.wolfPosition e)).length
        simp [List.filter_cons, hcond]
        omega
      · rw [if_neg hc, ih]
        have hcond : (decide ((integrateEgg delta x).travelDistance ≤
            (integrateEgg delta x).progress) &&
            wolfCatches st.wolfPosition (integrateEgg delta x)) = false := by
          rw [wolfCatches_integrate, Bool.eq_false_iff.mpr hc, Bool.and_false]
        show st.caughtEggs +
            ((xs.map (integrateEgg delta)).filter
              (fun e => decide (e.travelDistance ≤ e.progress) &&
                wolfCatches st.wolfPosition e)).length =
          st.caughtEggs +
            (((x :: xs).map (integrateEgg delta)).filter
              (fun e => decide (e.travelDistance ≤ e.progress) &&
                wolfCatches st.wolfPosition e)).length
        simp [List.filter_cons, hcond]
    · rw [if_neg hland, ih]
      have hcond : (decide ((integrateEgg delta x).travelDistance ≤
          (integrateEgg delta x).progress) &&
          wolfCatches st.wolfPosition (integrateEgg delta x)) = false := by
        have hd : decide ((integrateEgg delta x).travelDistance ≤
            (integrateEgg delta x).progress) = false := decide_eq_false hland
        rw [hd, Bool.false_and]
      simp [List.filter_cons, hcond]

lemma eggFold_dropped (delta : ℚ) (l : List Egg) :
    ∀ (st : GameModel) (es : List Egg),
      (l.foldl (eggStep delta) (st, es)).1.droppedEggs =
        st.droppedEggs +
          ((l.map (integrateEgg delta)).filter
            (fun e => decide (e.travelDistance ≤ e.progress) &&
                      !wolfCatches st.wolfPosition e)).length := by
  induction l with
  | nil => intro st es; simp
  | cons x xs ih =>
    intro st es
    rw [List.foldl_cons, eggStep_eq]
    by_cases hland : x.travelDistance ≤ x.progress + delta / 1000 * EGG_SPEED_UNITS_PER_SECOND
    · rw [if_pos hland]
      have hT : decide ((integrateEgg delta x).travelDistance ≤
          (integrateEgg delta x).progress) = true := decide_eq_true hland
      rw [handleEggDrop_eq]
      by_cases hc : wolfCatches st.wolfPosition x = true
      · rw [if_pos hc, ih]
        have hcond : (decide ((integrateEgg delta x).travelDistance ≤
            (integrateEgg delta x).progress) &&
            !wolfCatches st.wolfPosition (integrateEgg delta x)) = false := by
          rw [wolfCatches_integrate, hc]
          exact Bool.and_false _
        show st.droppedEggs +
            ((xs.map (integrateEgg delta)).filter
              (fun e => decide (e.travelDistance ≤ e.progress) &&
                !wolfCatches st.wolfPosition e)).length =
          st.droppedEggs +
            (((x :: xs).map (integrateEgg delta)).filter
              (fun e => decide (e.travelDistance ≤ e.progress) &&
                !wolfCatches st.wolfPosition e)).length
        simp [List.filter_cons, hcond]
      · rw [if_neg hc, ih]
        have hcond : (decide ((integrateEgg delta x).travelDistance ≤
            (integrateEgg delta x).progress) &&
            !wolfCatches st.wolfPosition (integrateEgg delta x)) = true := by
          rw [hT, wolfCatches_integrate, Bool.eq_false_iff.mpr hc]
          rfl
        show st.droppedEggs + 1 +
            ((xs.map (integrateEgg delta)).filter
              (fun e => decide (e.travelDistance ≤ e.progress) &&
                !wolfCatches st.wolfPosition e)).length =
          st.droppedEggs +
            (((x :: xs).map (integrateEgg delta)).filter
              (fun e => decide (e.travelDistance ≤ e.progress) &&
                !wolfCatches st.wolfPosition e)).length
        simp [List.filter_cons, hcond]
        omega
    · rw [if_neg hland, ih]
      have hcond : (decide ((integrateEgg delta x).travelDistance ≤
          (integrateEgg delta x).progress) &&
          !wolfCatches st.wolfPosition (integrateEgg delta x)) = false := by
        have hd : decide ((integrateEgg delta x).travelDistance ≤
            (integrateEgg delta x).progress) = false := decide_eq_false hland
        rw [hd, Bool.false_and]
      simp [List.filter_cons, hcond]

lemma length_filter_and_split {α : Type} (p q : α → Bool) (l : List α) :
    (l.filter fun a => p a && q a).length + (l.filter fun a => p a && !q a).length =
      (l.filter p).length := by
  induction l with
  | nil => rfl
  | cons x xs ih =>
    by_cases hp : p x = true <;> by_cases hq : q x = true <;>
      simp [List.filter_cons, hp, hq] <;> omega


/-- C1: in one updateEggs pass every egg whose integrated progress
reaches or exceeds its travel distance is removed from the registry
(only strict survivors remain), and each such landed egg increments
exactly one counter: caught-count when the wolf position equals the
catch position of the egg line (row = line, col = 0), dropped-count
otherwise. -/
theorem C1_egg_landing_resolution (delta : ℚ) (st : GameModel) :
    (updateEggs delta st).eggs =
        (st.eggs.map (integrateEgg delta)).filter
          (fun e => decide (e.progress < e.travelDistance)) ∧
    (updateEggs delta st).caughtEggs =
        st.caughtEggs +
          ((st.eggs.map (integrateEgg delta)).filter
            (fun e => decide (e.travelDistance ≤ e.progress) &&
                      wolfCatches st.wolfPosition e)).length ∧
    (updateEggs delta st).droppedEggs =
        st.droppedEggs +
          ((st.eggs.map (integrateEgg delta)).filter
            (fun e => decide (e.travelDistance ≤ e.progress) &&
                      !wolfCatches st.wolfPosition e)).length ∧
    ((st.eggs.map (integrateEgg delta)).filter
        (fun e => decide (e.travelDistance ≤ e.progress) &&
                  wolfCatches st.wolfPosition e)).length +
      ((st.eggs.map (integrateEgg delta)).filter
        (fun e => decide (e.travelDistance ≤ e.progress) &&
                  !wolfCatches st.wolfPosition e)).length =
      ((st.eggs.map (integrateEgg delta)).filter
        (fun e => decide (e.travelDistance ≤ e.progress))).length ∧
    ∀ e : Egg, wolfCatches st.wolfPosition e =
      decide (st.wolfPosition = { row := (e.line : Int), col := 0 }) := by
  refine ⟨?_, ?_, ?_, ?_, ?_⟩
  · show (st.eggs.foldl (eggStep delta) (st, [])).2 = _
    rw [eggFold_survivors]
    exact List.nil_append _
  · show (st.eggs.foldl (eggStep delta) (st, [])).1.caughtEggs = _
    exact eggFold_caught delta st.eggs st []
  · show (st.eggs.foldl (eggStep delta) (st, [])).1.droppedEggs = _
    exact eggFold_dropped delta st.eggs st []
  · exact length_filter_and_split _ _ _
  · intro e
    rcases hw : st.wolfPosition with ⟨r, c⟩
    simp [wolfCatches, catchPositionForLine, WOLF_COL, Position.mk.injEq]

/-- C7: with delta the clamped elapsed time of an update tick (hence
nonnegative), the surviving-egg list is exactly the integrated-then-
filtered input list, and every surviving egg is the integration of the
same egg (same identity) of the pre-tick registry: its own progress
grew by exactly (delta/1000) times the egg speed, so each egg's
progress never decreases while it lives. -/
theorem C7_progress_linear_monotone (now : ℚ) (st : GameModel) :
    0 ≤ clampedDelta now st.lastUpdate ∧
    (updateEggs (clampedDelta now st.lastUpdate) st).eggs =
      (st.eggs.map (integrateEgg (clampedDelta now st.lastUpdate))).filter
        (fun e => decide (e.progress < e.travelDistance)) ∧
    ∀ e' ∈ (updateEggs (clampedDelta now st.lastUpdate) st).eggs, ∃ e ∈ st.eggs,
      e' = integrateEgg (clampedDelta now st.lastUpdate) e ∧
      e'.id = e.id ∧
      e'.progress = e.progress +
        clampedDelta now st.lastUpdate / 1000 * EGG_SPEED_UNITS_PER_SECOND ∧
      e.progress ≤ e'.progress := by
  have hd : 0 ≤ clampedDelta now st.lastUpdate := le_max_left 0 _
  have hs : (updateEggs (clampedDelta now st.lastUpdate) st).eggs =
      (st.eggs.map (integrateEgg (clampedDelta now st.lastUpdate))).filter
        (fun e => decide (e.progress < e.travelDistance)) := by
    show (st.eggs.foldl (eggStep (clampedDelta now st.lastUpdate)) (st, [])).2 = _
    rw [eggFold_survivors]
    exact List.nil_append _
  refine ⟨hd, hs, ?_⟩
  intro e' he'
  rw [hs] at he'
  obtain ⟨hmem, _⟩ := List.mem_filter.mp he'
  obtain ⟨e, he, rfl⟩ := List.mem_map.mp hmem
  refine ⟨e, he, rfl, rfl, rfl, ?_⟩
  have hnn : 0 ≤ clampedDelta now st.lastUpdate / 1000 * EGG_SPEED_UNITS_PER_SECOND := by
    have : (0:ℚ) ≤ EGG_SPEED_UNITS_PER_SECOND := by norm_num [EGG_SPEED_UNITS_PER_SECOND]
    positivity
  show e.progress ≤ e.progress + _
  linarith

/-- Witness for C7 on a concrete state with one surviving egg. -/
theorem C7_witness :
    0 ≤ clampedDelta 0 sampleModel.lastUpdate ∧
    ∃ e ∈ sampleModel.eggs,
      integrateEgg (clampedDelta 0 sampleModel.lastUpdate) sampleEgg =
        integrateEgg (clampedDelta 0 sampleModel.lastUpdate) e ∧
      (integrateEgg (clampedDelta 0 sampleModel.lastUpdate) sampleEgg).id = e.id ∧
      (integrateEgg (clampedDelta 0 sampleModel.lastUpdate) sampleEgg).progress =
        e.progress +
          clampedDelta 0 sampleModel.lastUpdate / 1000 * EGG_SPEED_UNITS_PER_SECOND ∧
      e.progress ≤
        (integrateEgg (clampedDelta 0 sampleModel.lastUpdate) sampleEgg).progress := by
  refine ⟨(C7_progress_linear_monotone 0 sampleModel).1,
          (C7_progress_linear_monotone 0 sampleModel).2.2 _ ?_⟩
  have hs : (updateEggs (clampedDelta 0 sampleModel.lastUpdate) sampleModel).eggs =
      (sampleModel.eggs.map (integrateEgg (clampedDelta 0 sampleModel.lastUpdate))).filter
        (fun e => decide (e.progress < e.travelDistance)) := by
    show (sampleModel.eggs.foldl (eggStep (clampedDelta 0 sampleModel.lastUpdate))
      (sampleModel, [])).2 = _
    rw [eggFold_survivors]
    exact List.nil_append _
  rw [hs]
  have hd : clampedDelta 0 sampleModel.lastUpdate = 0 := by
    norm_num [clampedDelta, sampleModel]
  rw [hd]
  refine List.mem_filter.mpr ⟨?_, ?_⟩
  · simp [sampleModel]
  · norm_num [integrateEgg, sampleEgg]


/-! ### Wolf targeting (claim C4) -/

/-- The accumulator of the target-selection scan is the first minimum of
the eggs seen so far. -/
def firstMinSpec (seen : List Egg) (b : Egg × ℚ) : Prop :=
  b.2 = timeToDrop b.1 ∧
  ∃ k, seen.get? k = some b.1 ∧
    (∀ e ∈ seen, b.2 ≤ timeToDrop e) ∧
    (∀ j e, j < k → seen.get? j = some e → b.2 < timeToDrop e)

lemma scan_step (seen : List Egg) (b : Egg × ℚ) (x : Egg) (h : firstMinSpec seen b) :
    firstMinSpec (seen ++ [x])
      (if timeToDrop x < b.2 then (x, timeToDrop x) else b) := by
  obtain ⟨hb, k, hk, hmin, hstrict⟩ := h
  have hklt : k < seen.length := by
    by_contra hge
    rw [List.get?_eq_none.mpr (not_lt.mp hge)] at hk
    exact Option.noConfusion hk
  by_cases hlt : timeToDrop x < b.2
  · rw [if_pos hlt]
    refine ⟨rfl, seen.length, ?_, ?_, ?_⟩
    · rw [List.get?_append_right (le_refl _)]
      simp
    · intro e he
      rcases List.mem_append.mp he with h1 | h2
      · exact le_of_lt (lt_of_lt_of_le hlt (hmin e h1))
      · rw [List.mem_singleton.mp h2]
    · intro j e hj hje
      rw [List.get?_append hj] at hje
      exact lt_of_lt_of_le hlt (hmin e (List.get?_mem hje))
  · rw [if_neg hlt]
    refine ⟨hb, k, ?_, ?_, ?_⟩
    · rw [List.get?_append hklt]
      exact hk
    · intro e he
      rcases List.mem_append.mp he with h1 | h2
      · exact hmin e h1
      · rw [List.mem_singleton.mp h2]
        exact not_lt.mp hlt
    · intro j e hj hje
      rw [List.get?_append (lt_trans hj hklt)] at hje
      exact hstrict j e hj hje

lemma scan_fold (l : List Egg) : ∀ (seen : List Egg) (b : Egg × ℚ),
    firstMinSpec seen b → firstMinSpec (seen ++ l) (bestEggScan l b) := by
  induction l with
  | nil =>
    intro seen b h
    simpa [bestEggScan] using h
  | cons x xs ih =>
    intro seen b h
    have h2 := ih (seen ++ [x]) _ (scan_step seen b x h)
    show firstMinSpec (seen ++ (x :: xs))
      (bestEggScan xs (if timeToDrop x < b.2 then (x, timeToDrop x) else b))
    rw [List.append_assoc] at h2
    simpa using h2

lemma selectTarget_spec (eggs : List Egg) (hne : eggs ≠ []) :
    ∃ k best, eggs.get? k = some best ∧
      selectTarget eggs = catchPositionForLine best.side best.line ∧
      (∀ e ∈ eggs, timeToDrop best ≤ timeToDrop e) ∧
      (∀ j e, j < k → eggs.get? j = some e → timeToDrop best < timeToDrop e) := by
  cases eggs with
  | nil => exact absurd rfl hne
  | cons e0 rest =>
    have h0 : firstMinSpec [e0] (e0, timeToDrop e0) := by
      refine ⟨rfl, 0, rfl, ?_, ?_⟩
      · intro e he
        rw [List.mem_singleton.mp he]
      · intro j e hj
        omega
    have h1 : bestEggScan (e0 :: rest) (e0, timeToDrop e0) =
        bestEggScan rest (e0, timeToDrop e0) := by
      show bestEggScan rest
        (if timeToDrop e0 < (e0, timeToDrop e0).2 then (e0, timeToDrop e0)
         else (e0, timeToDrop e0)) = _
      rw [if_neg (lt_irrefl _)]
    have h2 := scan_fold rest [e0] (e0, timeToDrop e0) h0
    obtain ⟨hb, k, hk, hmin, hstrict⟩ := h2
    have hseen : ([e0] ++ rest) = e0 :: rest := rfl
    rw [hseen] at hk hmin hstrict
    refine ⟨k, (bestEggScan rest (e0, timeToDrop e0)).1, hk, ?_, ?_, ?_⟩
    · show catchPositionForLine (bestEggScan (e0 :: rest) (e0, timeToDrop e0)).1.side
        (bestEggScan (e0 :: rest) (e0, timeToDrop e0)).1.line = _
      rw [h1]
    · intro e he
      have := hmin e he
      rwa [hb] at this
    · intro j e hj hje
      have := hstrict j e hj hje
      rwa [hb] at this

/-- C4: on an update tick the wolf target is recomputed from scratch:
with no live eggs it is the fixed home position (middle line, column 0);
otherwise it is the catch position of the egg minimizing
(travelDistance - progress) / speed, ties resolved in favor of the first
egg in iteration order. -/
theorem C4_wolf_targeting (delta : ℚ) (st : GameModel) :
    (st.eggs = [] → (updateWolf delta st).wolfTarget =
        { row := WOLF_START_ROW, col := WOLF_COL }) ∧
    (WOLF_START_ROW = 1 ∧ WOLF_COL = 0) ∧
    ((∀ e ∈ st.eggs, e.progress ≤ e.travelDistance) → st.eggs ≠ [] →
      ∃ k best, st.eggs.get? k = some best ∧
        (updateWolf delta st).wolfTarget = catchPositionForLine best.side best.line ∧
        (∀ e ∈ st.eggs,
          (best.travelDistance - best.progress) / EGG_SPEED_UNITS_PER_SECOND ≤
          (e.travelDistance - e.progress) / EGG_SPEED_UNITS_PER_SECOND) ∧
        (∀ j e, j < k → st.eggs.get? j = some e →
          (best.travelDistance - best.progress) / EGG_SPEED_UNITS_PER_SECOND <
          (e.travelDistance - e.progress) / EGG_SPEED_UNITS_PER_SECOND)) := by
  have htarget : (updateWolf delta st).wolfTarget = selectTarget st.eggs := rfl
  refine ⟨?_, ⟨by decide, rfl⟩, ?_⟩
  · intro h
    rw [htarget, h]
    rfl
  · intro hall hne
    obtain ⟨k, best, hk, hsel, hmin, hstrict⟩ := selectTarget_spec st.eggs hne
    have hbest : best ∈ st.eggs := List.get?_mem hk
    have htd : ∀ e ∈ st.eggs, timeToDrop e =
        (e.travelDistance - e.progress) / EGG_SPEED_UNITS_PER_SECOND := by
      intro e he
      unfold timeToDrop
      rw [max_eq_right (sub_nonneg.mpr (hall e he))]
    refine ⟨k, best, hk, htarget ▸ hsel, ?_, ?_⟩
    · intro e he
      have := hmin e he
      rwa [htd best hbest, htd e he] at this
    · intro j e hj hje
      have := hstrict j e hj hje
      rwa [htd best hbest, htd e (List.get?_mem hje)] at this

/-- Witness for C4 at a concrete one-egg state. -/
theorem C4_witness :
    ∃ k best, sampleModel.eggs.get? k = some best ∧
      (updateWolf 0 sampleModel).wolfTarget = catchPositionForLine best.side best.line ∧
      (∀ e ∈ sampleModel.eggs,
        (best.travelDistance - best.progress) / EGG_SPEED_UNITS_PER_SECOND ≤
        (e.travelDistance - e.progress) / EGG_SPEED_UNITS_PER_SECOND) ∧
      (∀ j e, j < k → sampleModel.eggs.get? j = some e →
        (best.travelDistance - best.progress) / EGG_SPEED_UNITS_PER_SECOND <
        (e.travelDistance - e.progress) / EGG_SPEED_UNITS_PER_SECOND) :=
  (C4_wolf_targeting 0 sampleModel).2.2 (by decide) (by decide)


/-! ### Wolf motion (claim C5) -/

lemma Position.ext_rc {p q : Position} (h1 : p.row = q.row) (h2 : p.col = q.col) :
    p = q := by
  cases p; cases q; simp_all

/-- Grid distance between two positions. -/
def natDist (a b : Position) : Nat :=
  (a.row - b.row).natAbs + (a.col - b.col).natAbs

lemma stepWolf_eq (t p : Position) :
    stepWolf t p =
      if p.row = t.row ∧ p.col = t.col then p
      else if p.row ≠ t.row then
        { p with row := p.row + if p.row < t.row then 1 else -1 }
      else { p with col := p.col + if p.col < t.col then 1 else -1 } := by
  by_cases h1 : p.row = t.row ∧ p.col = t.col
  · simp [stepWolf, h1]
  · by_cases h2 : p.row = t.row
    · have h3 : p.col ≠ t.col := fun hc => h1 ⟨h2, hc⟩
      simp [stepWolf, h1, h2, h3]
    · simp [stepWolf, h1, h2]

lemma stepWolf_self (t : Position) : stepWolf t t = t := by
  rw [stepWolf_eq, if_pos ⟨rfl, rfl⟩]

lemma stepWolf_disp (t p : Position) :
    ((stepWolf t p).row - p.row).natAbs + ((stepWolf t p).col - p.col).natAbs ≤ 1 := by
  rw [stepWolf_eq]
  split_ifs <;> simp <;> split_ifs <;> simp <;> omega

lemma stepWolf_row_first (t p : Position) (h : p.row ≠ t.row) :
    (stepWolf t p).col = p.col := by
  have hne : ¬(p.row = t.row ∧ p.col = t.col) := fun hh => h hh.1
  rw [stepWolf_eq, if_neg hne, if_pos h]

lemma stepWolf_dist (t p : Position) (h : p ≠ t) :
    natDist t (stepWolf t p) + 1 = natDist t p := by
  have hne : ¬(p.row = t.row ∧ p.col = t.col) := fun hh => h (Position.ext_rc hh.1 hh.2)
  rw [stepWolf_eq, if_neg hne]
  by_cases hr : p.row ≠ t.row
  · rw [if_pos hr]
    unfold natDist
    split_ifs <;> simp <;> omega
  · rw [if_neg hr]
    have hr2 : p.row = t.row := not_not.mp hr
    have hc : p.col ≠ t.col := fun hcc => hne ⟨hr2, hcc⟩
    unfold natDist
    split_ifs <;> simp <;> omega

lemma stepWolf_iterate (t : Position) :
    ∀ (n : Nat) (p : Position), natDist t p ≤ n → (fun q => stepWolf t q)^[n] p = t := by
  intro n
  induction n with
  | zero =>
    intro p h
    simp only [Function.iterate_zero, id_eq]
    have h0 : natDist t p = 0 := Nat.le_zero.mp h
    unfold natDist at h0
    refine (Position.ext_rc ?_ ?_).symm <;> omega
  | succ n ih =>
    intro p h
    rw [Function.iterate_succ_apply]
    by_cases hp : p = t
    · rw [hp, stepWolf_self]
      exact ih t (by simp [natDist])
    · have hd := stepWolf_dist t p hp
      exact ih (stepWolf t p) (by omega)

lemma wolfLoop_eq (t : Position) :
    ∀ (n : Nat) (p : Position) (acc : ℚ), 0 ≤ acc →
      (⌊acc / WOLF_STEP_MS⌋).toNat = n →
      wolfLoop t p acc =
        ((fun q => stepWolf t q)^[n] p, acc - n * WOLF_STEP_MS) := by
  have hpos : (0:ℚ) < WOLF_STEP_MS := by norm_num [WOLF_STEP_MS]
  intro n
  induction n with
  | zero =>
    intro p acc hacc hn
    have h0 : 0 ≤ ⌊acc / WOLF_STEP_MS⌋ := Int.floor_nonneg.mpr (by positivity)
    have h1 : ⌊acc / WOLF_STEP_MS⌋ = 0 := by omega
    have h2 : acc / WOLF_STEP_MS < 1 := (Set.mem_Ico.mp (Int.floor_eq_zero_iff.mp h1)).2
    have h3 : acc < WOLF_STEP_MS := by
      have := (div_lt_one hpos).mp h2
      linarith
    unfold wolfLoop
    rw [dif_neg (not_le.mpr h3)]
    simp

  | succ n ih =>
    intro p acc hacc hn
    have hge : WOLF_STEP_MS ≤ acc := by
      by_contra hlt
      have h1 : ⌊acc / WOLF_STEP_MS⌋ = 0 := by
        rw [Int.floor_eq_zero_iff]
        exact Set.mem_Ico.mpr ⟨by positivity, (div_lt_one hpos).mpr (not_le.mp hlt)⟩
      rw [h1] at hn
      simp at hn
    have hfloor : (⌊(acc - WOLF_STEP_MS) / WOLF_STEP_MS⌋).toNat = n := by
      have e1 : (acc - WOLF_STEP_MS) / WOLF_STEP_MS = acc / WOLF_STEP_MS - 1 := by
        field_simp
      have e2 : ⌊acc / WOLF_STEP_MS - (1:ℚ)⌋ = ⌊acc / WOLF_STEP_MS⌋ - 1 := by
        have := Int.floor_sub_int (acc / WOLF_STEP_MS) 1
        simpa using this
      have h1 : 1 ≤ ⌊acc / WOLF_STEP_MS⌋ := by
        rw [Int.le_floor]
        push_cast
        exact (one_le_div hpos).mpr hge
      rw [e1, e2]
      omega
    unfold wolfLoop
    rw [dif_pos hge]
    rw [ih (stepWolf t p) (acc - WOLF_STEP_MS) (by linarith) hfloor]
    rw [Function.iterate_succ_apply]
    simp only [Prod.mk.injEq, true_and]
    push_cast
    ring

/-- C5: the wolf moves in discrete steps: one stepWolf call changes the
position by at most one grid unit on a single axis, closing the row gap
before the column gap; the accumulator loop of updateWolf performs one
step per full 240 ms interval accumulated; and toward a stationary
target the iterated step reaches the target after natDist many steps
and then holds. -/
theorem C5_wolf_step_motion (t p : Position) (acc : ℚ) (n : Nat)
    (delta : ℚ) (st : GameModel) :
    (((stepWolf t p).row - p.row).natAbs + ((stepWolf t p).col - p.col).natAbs ≤ 1) ∧
    (p.row ≠ t.row → (stepWolf t p).col = p.col) ∧
    (0 ≤ acc → wolfLoop t p acc =
      ((fun q => stepWolf t q)^[(⌊acc / WOLF_STEP_MS⌋).toNat] p,
        acc - (⌊acc / WOLF_STEP_MS⌋).toNat * WOLF_STEP_MS)) ∧
    ((updateWolf delta st).wolfPosition =
      (wolfLoop (selectTarget st.eggs) st.wolfPosition
        (st.wolfMoveAccumulator + delta)).1) ∧
    (natDist t p ≤ n → (fun q => stepWolf t q)^[n] p = t) ∧
    stepWolf t t = t := by
  refine ⟨stepWolf_disp t p, stepWolf_row_first t p, ?_, rfl,
          stepWolf_iterate t n p, stepWolf_self t⟩
  intro hacc
  exact wolfLoop_eq t (⌊acc / WOLF_STEP_MS⌋).toNat p acc hacc rfl

/-- Witness for C5 at concrete positions and accumulator values. -/
theorem C5_witness :
    ((stepWolf { row := 0, col := 0 } { row := 2, col := 0 }).col = 2 - 2 + 0 ∨
      (stepWolf { row := 0, col := 0 } { row := 2, col := 0 }).col = 0) ∧
    (stepWolf { row := 0, col := 0 } { row := 2, col := 0 }).col = 0 ∧
    wolfLoop { row := 0, col := 0 } { row := 2, col := 0 } 0 =
      ((fun q => stepWolf { row := 0, col := 0 } q)^[(⌊(0:ℚ) / WOLF_STEP_MS⌋).toNat]
        { row := 2, col := 0 },
       0 - (⌊(0:ℚ) / WOLF_STEP_MS⌋).toNat * WOLF_STEP_MS) ∧
    (fun q => stepWolf { row := 0, col := 0 } q)^[2] { row := 2, col := 0 } =
      { row := 0, col := 0 } := by
  have h := C5_wolf_step_motion { row := 0, col := 0 } { row := 2, col := 0 } 0 2 0 sampleModel
  refine ⟨Or.inr (h.2.1 (by decide)), h.2.1 (by decide), ?_, h.2.2.2.2.1 (by decide)⟩
  exact h.2.2.1 (by norm_num)


/-! ### Initial timer seeding (claim C8) -/

lemma foldl_min_le_init : ∀ (xs : List ℚ) (a : ℚ), xs.foldl min a ≤ a := by
  intro xs
  induction xs with
  | nil => intro a; exact le_refl a
  | cons x xs ih =>
    intro a
    exact le_trans (ih (min a x)) (min_le_left a x)

lemma foldl_min_le_mem : ∀ (xs : List ℚ) (a x : ℚ), x ∈ xs → xs.foldl min a ≤ x := by
  intro xs
  induction xs with
  | nil => intro a x hx; exact absurd hx (List.not_mem_nil x)
  | cons y ys ih =>
    intro a x hx
    rcases List.mem_cons.mp hx with h1 | h2
    · rw [h1, List.foldl_cons]
      exact le_trans (foldl_min_le_init ys (min a y)) (min_le_right a y)
    · exact ih (min a y) x h2

lemma foldl_min_mem : ∀ (xs : List ℚ) (a : ℚ), xs.foldl min a = a ∨ xs.foldl min a ∈ xs := by
  intro xs
  induction xs with
  | nil => intro a; left; rfl
  | cons y ys ih =>
    intro a
    rcases ih (min a y) with h1 | h2
    · rcases min_choice a y with hm | hm
      · left; rw [List.foldl_cons, h1, hm]
      · right; rw [List.foldl_cons, h1, hm]; exact List.mem_cons_self y ys
    · right; exact List.mem_cons_of_mem y h2

lemma minList_le (l : List ℚ) (x : ℚ) (hx : x ∈ l) : minList l ≤ x := by
  cases l with
  | nil => exact absurd hx (List.not_mem_nil x)
  | cons y ys =>
    rcases List.mem_cons.mp hx with h1 | h2
    · rw [h1]
      exact foldl_min_le_init ys y
    · exact foldl_min_le_mem ys y x h2

lemma minList_mem (l : List ℚ) (h : l ≠ []) : minList l ∈ l := by
  cases l with
  | nil => exact absurd rfl h
  | cons y ys =>
    rcases foldl_min_mem ys y with h1 | h2
    · rw [show minList (y :: ys) = ys.foldl min y from rfl, h1]
      exact List.mem_cons_self y ys
    · exact List.mem_cons_of_mem y h2

lemma foldl_min_sub : ∀ (xs : List ℚ) (a r : ℚ),
    (xs.map fun x => x - r).foldl min (a - r) = xs.foldl min a - r := by
  intro xs
  induction xs with
  | nil => intro a r; rfl
  | cons y ys ih =>
    intro a r
    rw [List.map_cons, List.foldl_cons, List.foldl_cons, min_sub_sub_right, ih]

lemma minList_map_sub (l : List ℚ) (r : ℚ) (h : l ≠ []) :
    minList (l.map fun x => x - r) = minList l - r := by
  cases l with
  | nil => exact absurd rfl h
  | cons y ys =>
    rw [List.map_cons]
    exact foldl_min_sub ys y r

lemma spawnRandomChicken_append (rSeat rDelay : ℚ) (idStr : String) (st : GameModel) :
    (spawnRandomChicken rSeat rDelay idStr st).chickens = st.chickens ∨
    ∃ c, (spawnRandomChicken rSeat rDelay idStr st).chickens = st.chickens ++ [c] ∧
      c.nextEggMs = randomDelay EGG_COOLDOWN_RANGE_MS rDelay := by
  unfold spawnRandomChicken
  cases pickRandomFreeSeat st.chickens rSeat with
  | none => left; rfl
  | some seat => right; exact ⟨_, rfl, rfl⟩

lemma spawnFold_timers (o : InitOracle) (is : List Nat) :
    ∀ (st : GameModel),
      ∀ c ∈ (is.foldl (fun st i =>
          spawnRandomChicken (o.seatDraw i) (o.delayDraw i) (o.idDraw i) st) st).chickens,
        c ∈ st.chickens ∨
        ∃ i, c.nextEggMs = randomDelay EGG_COOLDOWN_RANGE_MS (o.delayDraw i) := by
  induction is with
  | nil => intro st c hc; left; exact hc
  | cons j js ih =>
    intro st c hc
    rw [List.foldl_cons] at hc
    rcases ih _ c hc with hin | hex
    · rcases spawnRandomChicken_append (o.seatDraw j) (o.delayDraw j) (o.idDraw j) st
        with heq | ⟨c2, heq, ht⟩
      · left; rwa [heq] at hin
      · rw [heq] at hin
        rcases List.mem_append.mp hin with h1 | h2
        · left; exact h1
        · right
          refine ⟨j, ?_⟩
          rw [List.mem_singleton.mp h2]
          exact ht
    · right; exact hex

lemma seedSpawnPhase_timers (o : InitOracle) (st : GameModel) (hempty : st.chickens = [])
    (hdraw : ∀ i, 0 ≤ o.delayDraw i) :
    ∀ c ∈ (seedSpawnPhase o st).chickens, (10000:ℚ) ≤ c.nextEggMs := by
  intro c hc
  rcases spawnFold_timers o _ st c hc with hin | ⟨i, hti⟩
  · rw [hempty] at hin
    exact absurd hin (List.not_mem_nil c)
  · rw [hti]
    show (10000:ℚ) ≤ o.delayDraw i * (20000 - 10000) + 10000
    have h1 : 0 ≤ o.delayDraw i * (20000 - 10000) :=
      mul_nonneg (hdraw i) (by norm_num)
    linarith

/-- C8: right after seeding the initial chickens, the smallest next-egg
countdown is exactly the fixed initial delay (3000 ms), every timer was
reduced by the same amount, and hence pairwise timer differences equal
the differences of the originally drawn random delays. -/
theorem C8_initial_timer_seeding (o : InitOracle) (st : GameModel)
    (hempty : st.chickens = [])
    (hdraw : ∀ i, 0 ≤ o.delayDraw i)
    (hne : (seedSpawnPhase o st).chickens ≠ []) :
    minList ((seedInitialChickens o st).chickens.map fun c => c.nextEggMs) =
      INITIAL_EGG_SPAWN_MS ∧
    INITIAL_EGG_SPAWN_MS = 3000 ∧
    (seedInitialChickens o st).chickens.length =
      (seedSpawnPhase o st).chickens.length ∧
    (∀ i j ci cj di dj,
      (seedInitialChickens o st).chickens.get? i = some ci →
      (seedInitialChickens o st).chickens.get? j = some cj →
      (seedSpawnPhase o st).chickens.get? i = some di →
      (seedSpawnPhase o st).chickens.get? j = some dj →
      ci.nextEggMs - cj.nextEggMs = di.nextEggMs - dj.nextEggMs) := by
  have hall := seedSpawnPhase_timers o st hempty hdraw
  have hmapne : (seedSpawnPhase o st).chickens.map (fun c => c.nextEggMs) ≠ [] := by
    intro hmap
    exact hne (List.map_eq_nil.mp hmap)
  have hminmem := minList_mem _ hmapne
  obtain ⟨c0, hc0, hc0min⟩ := List.mem_map.mp hminmem
  have hmin10000 :
      (10000:ℚ) ≤ minList ((seedSpawnPhase o st).chickens.map fun c => c.nextEggMs) := by
    rw [← hc0min]
    exact hall c0 hc0
  have hredpos :
      0 < minList ((seedSpawnPhase o st).chickens.map fun c => c.nextEggMs) -
        INITIAL_EGG_SPAWN_MS := by
    unfold INITIAL_EGG_SPAWN_MS
    linarith
  have hlen : 0 < (seedSpawnPhase o st).chickens.length := List.length_pos.mpr hne
  have hpost : seedInitialChickens o st =
      { seedSpawnPhase o st with
        chickens := (seedSpawnPhase o st).chickens.map fun c =>
          { c with nextEggMs := c.nextEggMs -
            (minList ((seedSpawnPhase o st).chickens.map fun c => c.nextEggMs) -
              INITIAL_EGG_SPAWN_MS) } } := by
    show (if 0 < (seedSpawnPhase o st).chickens.length then
        (if 0 < minList ((seedSpawnPhase o st).chickens.map fun chicken =>
            chicken.nextEggMs) - INITIAL_EGG_SPAWN_MS then
          { seedSpawnPhase o st with
            chickens := (seedSpawnPhase o st).chickens.map fun chicken =>
              { chicken with nextEggMs := chicken.nextEggMs -
                (minList ((seedSpawnPhase o st).chickens.map fun chicken =>
                  chicken.nextEggMs) - INITIAL_EGG_SPAWN_MS) } }
         else seedSpawnPhase o st)
      else seedSpawnPhase o st) = _
    rw [if_pos hlen, if_pos hredpos]
  refine ⟨?_, rfl, ?_, ?_⟩
  · rw [hpost]
    show minList (List.map _ (List.map _ (seedSpawnPhase o st).chickens)) = _
    rw [List.map_map]
    have hcomp : ((fun c : Chicken => c.nextEggMs) ∘ fun c =>
        { c with nextEggMs := c.nextEggMs -
          (minList ((seedSpawnPhase o st).chickens.map fun c => c.nextEggMs) -
            INITIAL_EGG_SPAWN_MS) }) =
        ((fun x => x - (minList ((seedSpawnPhase o st).chickens.map fun c => c.nextEggMs) -
            INITIAL_EGG_SPAWN_MS)) ∘ fun c : Chicken => c.nextEggMs) := rfl
    rw [hcomp, ← List.map_map]
    rw [minList_map_sub _ _ hmapne]
    ring
  · rw [hpost]
    show (List.map _ (seedSpawnPhase o st).chickens).length = _
    rw [List.length_map]
  · intro i j ci cj di dj hci hcj hdi hdj
    rw [hpost] at hci hcj
    have hci2 : Option.map (fun c : Chicken =>
        { c with nextEggMs := c.nextEggMs -
          (minList ((seedSpawnPhase o st).chickens.map fun c => c.nextEggMs) -
            INITIAL_EGG_SPAWN_MS) }) ((seedSpawnPhase o st).chickens.get? i) = some ci := by
      rw [← List.get?_map]
      exact hci
    have hcj2 : Option.map (fun c : Chicken =>
        { c with nextEggMs := c.nextEggMs -
          (minList ((seedSpawnPhase o st).chickens.map fun c => c.nextEggMs) -
            INITIAL_EGG_SPAWN_MS) }) ((seedSpawnPhase o st).chickens.get? j) = some cj := by
      rw [← List.get?_map]
      exact hcj
    rw [hdi] at hci2
    rw [hdj] at hcj2
    rw [Option.map_some'] at hci2 hcj2
    injection hci2 with hci3
    injection hcj2 with hcj3
    rw [← hci3, ← hcj3]
    show di.nextEggMs - _ - (dj.nextEggMs - _) = _
    ring


/-- The startup field values of the GameModel class before
seedInitialChickens runs, at construction timestamp 0 with the sample
oracle draws. -/
def blankModel : GameModel :=
  { chickens := [], eggs := [],
    wolfPosition := { row := WOLF_START_ROW, col := WOLF_COL },
    wolfTarget := { row := WOLF_START_ROW, col := WOLF_COL },
    caughtEggs := 0, droppedEggs := 0, gameOver := false,
    startTime := 0, elapsedMs := 0, lastUpdate := 0,
    nextChickenSpawnMs := randomDelay CHICKEN_SPAWN_RANGE_MS 0,
    wolfMoveAccumulator := 0 }

lemma pickRandomFreeSeat_nil :
    pickRandomFreeSeat [] 0 = some { side := Side.right, line := 0, seat := 0 } := by
  have hfilter : (allSeats.filter fun s =>
      !((List.map (fun c : Chicken => seatKey c.side c.line c.seat) []).contains
        (seatKey s.side s.line s.seat))) = allSeats := by
    simp
  show (if (allSeats.filter fun s =>
      !((List.map (fun c : Chicken => seatKey c.side c.line c.seat) []).contains
        (seatKey s.side s.line s.seat))).length = 0 then none
    else (allSeats.filter fun s =>
      !((List.map (fun c : Chicken => seatKey c.side c.line c.seat) []).contains
        (seatKey s.side s.line s.seat))).get?
      (⌊(0:ℚ) * (((allSeats.filter fun s =>
        !((List.map (fun c : Chicken => seatKey c.side c.line c.seat) []).contains
          (seatKey s.side s.line s.seat))).length : ℕ) : ℚ)⌋).toNat) =
    some { side := Side.right, line := 0, seat := 0 }
  rw [hfilter]
  rw [if_neg (by decide)]
  have hidx : (⌊(0:ℚ) * ((allSeats.length : ℕ) : ℚ)⌋).toNat = 0 := by
    norm_num
  rw [hidx]
  decide

/-- Witness for C8 with the sample init oracle (all draws zero). -/
theorem C8_witness :
    minList ((seedInitialChickens sampleInitOracle blankModel).chickens.map
      fun c => c.nextEggMs) = INITIAL_EGG_SPAWN_MS ∧
    INITIAL_EGG_SPAWN_MS = 3000 ∧
    (seedInitialChickens sampleInitOracle blankModel).chickens.length =
      (seedSpawnPhase sampleInitOracle blankModel).chickens.length ∧
    (∀ i j ci cj di dj,
      (seedInitialChickens sampleInitOracle blankModel).chickens.get? i = some ci →
      (seedInitialChickens sampleInitOracle blankModel).chickens.get? j = some cj →
      (seedSpawnPhase sampleInitOracle blankModel).chickens.get? i = some di →
      (seedSpawnPhase sampleInitOracle blankModel).chickens.get? j = some dj →
      ci.nextEggMs - cj.nextEggMs = di.nextEggMs - dj.nextEggMs) := by
  refine C8_initial_timer_seeding sampleInitOracle blankModel rfl (fun _ => le_refl 0) ?_
  have htotal : (⌊randomBetween MIN_INITIAL_CHICKENS (MAX_INITIAL_CHICKENS + 1)
      sampleInitOracle.countDraw⌋).toNat = 2 := by
    norm_num [randomBetween, MIN_INITIAL_CHICKENS, MAX_INITIAL_CHICKENS, sampleInitOracle]
    decide
  show (spawnLoop sampleInitOracle
    (⌊randomBetween MIN_INITIAL_CHICKENS (MAX_INITIAL_CHICKENS + 1)
      sampleInitOracle.countDraw⌋).toNat blankModel).chickens ≠ []
  rw [htotal]
  unfold spawnLoop
  rw [show List.range 2 = [0, 1] from by decide]
  rw [List.foldl_cons, List.foldl_cons, List.foldl_nil]
  have h1 : (spawnRandomChicken (sampleInitOracle.seatDraw 0) (sampleInitOracle.delayDraw 0)
      (sampleInitOracle.idDraw 0) blankModel).chickens ≠ [] := by
    show (spawnRandomChicken 0 0 "x" blankModel).chickens ≠ []
    unfold spawnRandomChicken
    rw [show blankModel.chickens = ([] : List Chicken) from rfl]
    rw [pickRandomFreeSeat_nil]
    simp
  rcases spawnRandomChicken_append (sampleInitOracle.seatDraw 1) (sampleInitOracle.delayDraw 1)
      (sampleInitOracle.idDraw 1)
      (spawnRandomChicken (sampleInitOracle.seatDraw 0) (sampleInitOracle.delayDraw 0)
        (sampleInitOracle.idDraw 0) blankModel) with heq | hex
  · rw [heq]
    exact h1
  · obtain ⟨c2, heq, _⟩ := hex
    rw [heq]
    exact List.append_ne_nil_of_left_ne_nil h1 _


/-! ### Game-over invariant (claim C2) -/

/-- The two score fields that decide game over. -/
def scoreFrame (a b : GameModel) : Prop :=
  a.gameOver = b.gameOver ∧ a.droppedEggs = b.droppedEggs

/-- The game-over flag tracks the dropped-egg threshold. -/
def gameOverInv (st : GameModel) : Prop :=
  st.gameOver = true ↔ MAX_DROPPED_EGGS ≤ st.droppedEggs

lemma scoreFrame_trans {a b c : GameModel} (h1 : scoreFrame a b) (h2 : scoreFrame b c) :
    scoreFrame a c :=
  ⟨h1.1.trans h2.1, h1.2.trans h2.2⟩

lemma gameOverInv_of_scoreFrame {a b : GameModel} (hf : scoreFrame a b)
    (h : gameOverInv b) : gameOverInv a := by
  unfold gameOverInv at *
  rw [hf.1, hf.2]
  exact h

lemma handleEggDrop_inv (egg : Egg) (st : GameModel) (h : gameOverInv st) :
    gameOverInv (handleEggDrop egg st) := by
  rw [handleEggDrop_eq]
  split
  · exact h
  · unfold gameOverInv at h ⊢
    show (if MAX_DROPPED_EGGS ≤ st.droppedEggs + 1 then true else st.gameOver) = true ↔
      MAX_DROPPED_EGGS ≤ st.droppedEggs + 1
    split
    · rename_i hc
      exact ⟨fun _ => hc, fun _ => rfl⟩
    · rename_i hc
      constructor
      · intro hg
        exact le_trans (h.mp hg) (Nat.le_succ _)
      · intro hcc
        exact absurd hcc hc

lemma eggFold_inv (delta : ℚ) (l : List Egg) :
    ∀ (st : GameModel) (es : List Egg), gameOverInv st →
      gameOverInv (l.foldl (eggStep delta) (st, es)).1 := by
  induction l with
  | nil => intro st es h; exact h
  | cons x xs ih =>
    intro st es h
    rw [List.foldl_cons, eggStep_eq]
    by_cases hland : x.travelDistance ≤ x.progress + delta / 1000 * EGG_SPEED_UNITS_PER_SECOND
    · rw [if_pos hland]
      exact ih _ _ (handleEggDrop_inv x st h)
    · rw [if_neg hland]
      exact ih _ _ h

lemma updateEggs_inv (delta : ℚ) (st : GameModel) (h : gameOverInv st) :
    gameOverInv (updateEggs delta st) :=
  eggFold_inv delta st.eggs st [] h

lemma spawnRandomChicken_scoreFrame (rSeat rDelay : ℚ) (idStr : String) (st : GameModel) :
    scoreFrame (spawnRandomChicken rSeat rDelay idStr st) st := by
  unfold spawnRandomChicken
  cases pickRandomFreeSeat st.chickens rSeat <;> exact ⟨rfl, rfl⟩

lemma updateChickenSpawns_eq (delta : ℚ) (o : UpdateOracle) (st : GameModel) :
    updateChickenSpawns delta o st =
      if 0 < st.nextChickenSpawnMs - delta then
        { st with nextChickenSpawnMs := st.nextChickenSpawnMs - delta }
      else
        { spawnRandomChicken o.spawnSeat o.spawnDelay o.spawnId
            { st with nextChickenSpawnMs := st.nextChickenSpawnMs - delta } with
          nextChickenSpawnMs := randomDelay CHICKEN_SPAWN_RANGE_MS o.nextSpawn } := rfl

lemma updateChickenSpawns_scoreFrame (delta : ℚ) (o : UpdateOracle) (st : GameModel) :
    scoreFrame (updateChickenSpawns delta o st) st := by
  rw [updateChickenSpawns_eq]
  split
  · exact ⟨rfl, rfl⟩
  · have h := spawnRandomChicken_scoreFrame o.spawnSeat o.spawnDelay o.spawnId
      { st with nextChickenSpawnMs := st.nextChickenSpawnMs - delta }
    exact ⟨h.1, h.2⟩

lemma updateChickenEggs_scoreFrame (delta : ℚ) (o : UpdateOracle) (st : GameModel) :
    scoreFrame (updateChickenEggs delta o st) st := ⟨rfl, rfl⟩

lemma updateWolf_scoreFrame (delta : ℚ) (st : GameModel) :
    scoreFrame (updateWolf delta st) st := ⟨rfl, rfl⟩

lemma removeChicken_scoreFrame (id : String) (st : GameModel) :
    scoreFrame (removeChicken id st) st := ⟨rfl, rfl⟩

lemma removeEgg_scoreFrame (id : String) (st : GameModel) :
    scoreFrame (removeEgg id st) st := ⟨rfl, rfl⟩

lemma shootChicken_scoreFrame (id eggIdStr : String) (st : GameModel) :
    scoreFrame (shootChicken id eggIdStr st) st := by
  unfold shootChicken
  cases st.chickens.find? (fun item => item.id = id) <;> exact ⟨rfl, rfl⟩

lemma update_eq (now : ℚ) (o : UpdateOracle) (st : GameModel) :
    update now o st =
      if st.gameOver then { st with lastUpdate := now }
      else
        updateWolf (clampedDelta now st.lastUpdate)
          (updateEggs (clampedDelta now st.lastUpdate)
            (updateChickenEggs (clampedDelta now st.lastUpdate) o
              (updateChickenSpawns (clampedDelta now st.lastUpdate) o
                { st with lastUpdate := now,
                          elapsedMs := max 0 (now - st.startTime) }))) := rfl

lemma update_inv (now : ℚ) (o : UpdateOracle) (st : GameModel) (h : gameOverInv st) :
    gameOverInv (update now o st) := by
  rw [update_eq]
  split
  · exact h
  · apply gameOverInv_of_scoreFrame (updateWolf_scoreFrame _ _)
    apply updateEggs_inv
    apply gameOverInv_of_scoreFrame (updateChickenEggs_scoreFrame _ _ _)
    apply gameOverInv_of_scoreFrame (updateChickenSpawns_scoreFrame _ _ _)
    exact h

lemma spawnFold_scoreFrame (o : InitOracle) (is : List Nat) :
    ∀ st : GameModel,
      scoreFrame (is.foldl (fun st i =>
        spawnRandomChicken (o.seatDraw i) (o.delayDraw i) (o.idDraw i) st) st) st := by
  induction is with
  | nil => intro st; exact ⟨rfl, rfl⟩
  | cons j js ih =>
    intro st
    rw [List.foldl_cons]
    exact scoreFrame_trans (ih _)
      (spawnRandomChicken_scoreFrame (o.seatDraw j) (o.delayDraw j) (o.idDraw j) st)

/-- seedInitialChickens either leaves the spawn-phase result unchanged
or reduces every timer by the same amount. -/
lemma seedInitialChickens_cases (o : InitOracle) (st : GameModel) :
    seedInitialChickens o st = seedSpawnPhase o st ∨
    ∃ r, seedInitialChickens o st =
      { seedSpawnPhase o st with
        chickens := (seedSpawnPhase o st).chickens.map fun c =>
          { c with nextEggMs := c.nextEggMs - r } } := by
  have hbody : seedInitialChickens o st =
      (if 0 < (seedSpawnPhase o st).chickens.length then
        (if 0 < minList ((seedSpawnPhase o st).chickens.map fun chicken =>
            chicken.nextEggMs) - INITIAL_EGG_SPAWN_MS then
          { seedSpawnPhase o st with
            chickens := (seedSpawnPhase o st).chickens.map fun chicken =>
              { chicken with nextEggMs := chicken.nextEggMs -
                (minList ((seedSpawnPhase o st).chickens.map fun chicken =>
                  chicken.nextEggMs) - INITIAL_EGG_SPAWN_MS) } }
         else seedSpawnPhase o st)
      else seedSpawnPhase o st) := rfl
  rw [hbody]
  split
  · split
    · right
      exact ⟨_, rfl⟩
    · left; rfl
  · left; rfl

lemma seedInitialChickens_scoreFrame (o : InitOracle) (st : GameModel) :
    scoreFrame (seedInitialChickens o st) st := by
  have hpre : scoreFrame (seedSpawnPhase o st) st :=
    spawnFold_scoreFrame o (List.range (⌊randomBetween MIN_INITIAL_CHICKENS
      (MAX_INITIAL_CHICKENS + 1) o.countDraw⌋).toNat) st
  rcases seedInitialChickens_cases o st with h | ⟨r, h⟩ <;> rw [h]
  · exact hpre
  · exact scoreFrame_trans ⟨rfl, rfl⟩ hpre

lemma initModel_inv (now : ℚ) (o : InitOracle) : gameOverInv (initModel now o) := by
  apply gameOverInv_of_scoreFrame (seedInitialChickens_scoreFrame o _)
  unfold gameOverInv
  show (false = true) ↔ MAX_DROPPED_EGGS ≤ 0
  simp [MAX_DROPPED_EGGS]

lemma reachable_gameOverInv (s : GameModel) (h : Reachable s) : gameOverInv s := by
  induction h with
  | init now o => exact initModel_inv now o
  | step s op _ ih =>
    cases op with
    | update now o => exact update_inv now o s ih
    | removeChicken id => exact gameOverInv_of_scoreFrame (removeChicken_scoreFrame id s) ih
    | removeEgg id => exact gameOverInv_of_scoreFrame (removeEgg_scoreFrame id s) ih
    | shootChicken id e => exact gameOverInv_of_scoreFrame (shootChicken_scoreFrame id e s) ih
    | reset now o => exact initModel_inv now o

lemma gameOver_monotone (s : GameModel) (op : Op) (h : s.gameOver = true)
    (hr : op.isReset = false) : (applyOp op s).gameOver = true := by
  cases op with
  | update now o =>
    show (update now o s).gameOver = true
    rw [update_eq, if_pos (by rw [h])]
    exact h
  | removeChicken id => exact h
  | removeEgg id => exact h
  | shootChicken id e =>
    show (shootChicken id e s).gameOver = true
    unfold shootChicken
    cases s.chickens.find? (fun item => item.id = id) <;> exact h
  | reset now o => simp [Op.isReset] at hr

/-- C2: in every reachable engine state the game-over flag holds exactly
when the dropped count has reached 3, and once the flag is true every
operation other than reset keeps it true. -/
theorem C2_gameover_iff_dropped (s : GameModel) (h : Reachable s) :
    (s.gameOver = true ↔ 3 ≤ s.droppedEggs) ∧
    (∀ op : Op, s.gameOver = true → op.isReset = false →
      (applyOp op s).gameOver = true) :=
  ⟨reachable_gameOverInv s h, fun op hg hr => gameOver_monotone s op hg hr⟩

/-- Witness for C2 at a freshly constructed engine. -/
theorem C2_witness :
    ((initModel 0 sampleInitOracle).gameOver = true ↔
      3 ≤ (initModel 0 sampleInitOracle).droppedEggs) ∧
    (∀ op : Op, (initModel 0 sampleInitOracle).gameOver = true → op.isReset = false →
      (applyOp op (initModel 0 sampleInitOracle)).gameOver = true) :=
  C2_gameover_iff_dropped (initModel 0 sampleInitOracle)
    (Reachable.init 0 sampleInitOracle)


/-! ### Seat occupancy invariant (claim C3) -/

/-- Two chickens do not share a (line, seat) pair. -/
def seatNe (a b : Chicken) : Prop := ¬(a.line = b.line ∧ a.seat = b.seat)

def seatInv (st : GameModel) : Prop := st.chickens.Pairwise seatNe

lemma seatInv_of_chickens_eq {a b : GameModel} (he : a.chickens = b.chickens)
    (h : seatInv b) : seatInv a := by
  unfold seatInv at *
  rw [he]
  exact h

lemma pickRandomFreeSeat_eq (chickens : List Chicken) (r : ℚ) :
    pickRandomFreeSeat chickens r =
      (if (allSeats.filter fun s =>
          !((chickens.map fun c => seatKey c.side c.line c.seat).contains
            (seatKey s.side s.line s.seat))).length = 0 then none
       else (allSeats.filter fun s =>
          !((chickens.map fun c => seatKey c.side c.line c.seat).contains
            (seatKey s.side s.line s.seat))).get?
        (⌊r * (((allSeats.filter fun s =>
          !((chickens.map fun c => seatKey c.side c.line c.seat).contains
            (seatKey s.side s.line s.seat))).length : ℕ) : ℚ)⌋).toNat) := rfl

lemma side_eq (a b : Side) : a = b := by
  cases a; cases b; rfl

lemma pickRandomFreeSeat_fresh (chickens : List Chicken) (r : ℚ) (s : SeatPosition)
    (h : pickRandomFreeSeat chickens r = some s) :
    ∀ c ∈ chickens, ¬(c.line = s.line ∧ c.seat = s.seat) := by
  rw [pickRandomFreeSeat_eq] at h
  split at h
  · exact absurd h (by simp)
  · have hs := List.get?_mem h
    obtain ⟨_, hb⟩ := List.mem_filter.mp hs
    rw [Bool.not_eq_true'] at hb
    have hnot : seatKey s.side s.line s.seat ∉
        chickens.map fun c => seatKey c.side c.line c.seat := by
      simpa using hb
    intro c hc hcon
    apply hnot
    rw [List.mem_map]
    refine ⟨c, hc, ?_⟩
    rw [side_eq c.side s.side, hcon.1, hcon.2]

lemma spawnRandomChicken_seatInv (rSeat rDelay : ℚ) (idStr : String) (st : GameModel)
    (h : seatInv st) : seatInv (spawnRandomChicken rSeat rDelay idStr st) := by
  unfold spawnRandomChicken
  cases hp : pickRandomFreeSeat st.chickens rSeat with
  | none => exact h
  | some seat =>
    unfold seatInv at *
    show (st.chickens ++
      [({ id := seatKey seat.side seat.line seat.seat ++ "-" ++ idStr
          side := seat.side
          line := seat.line
          seat := seat.seat
          nextEggMs := randomDelay EGG_COOLDOWN_RANGE_MS rDelay
          extraTimer := 0 } : Chicken)]).Pairwise seatNe
    rw [List.pairwise_append]
    refine ⟨h, List.pairwise_singleton _ _, ?_⟩
    intro a ha b hb
    rw [List.mem_singleton.mp hb]
    intro hcon
    exact pickRandomFreeSeat_fresh st.chickens rSeat seat hp a ha ⟨hcon.1, hcon.2⟩

lemma pairwise_seat_map (l : List Chicken) (f : Chicken → Chicken)
    (hf : ∀ c, (f c).line = c.line ∧ (f c).seat = c.seat)
    (h : l.Pairwise seatNe) : (l.map f).Pairwise seatNe := by
  rw [List.pairwise_map]
  refine h.imp ?_
  intro a b hab
  unfold seatNe at *
  rw [(hf a).1, (hf a).2, (hf b).1, (hf b).2]
  exact hab

lemma updateChickenSpawns_seatInv (delta : ℚ) (o : UpdateOracle) (st : GameModel)
    (h : seatInv st) : seatInv (updateChickenSpawns delta o st) := by
  rw [updateChickenSpawns_eq]
  split
  · exact h
  · exact spawnRandomChicken_seatInv o.spawnSeat o.spawnDelay o.spawnId
      { st with nextChickenSpawnMs := st.nextChickenSpawnMs - delta } h

lemma chickenEggStep_eq (delta : ℚ) (o : UpdateOracle) (i : Nat) (c : Chicken) :
    chickenEggStep delta o i c =
      if 0 < c.nextEggMs - delta then
        ({ c with extraTimer := max 0 (c.extraTimer - delta)
                  nextEggMs := c.nextEggMs - delta }, none)
      else
        ({ c with extraTimer := max 0 (c.extraTimer - delta)
                  nextEggMs := randomDelay EGG_COOLDOWN_RANGE_MS (o.eggDraw i) },
         some (spawnEggFor
           { c with extraTimer := max 0 (c.extraTimer - delta)
                    nextEggMs := c.nextEggMs - delta } (o.eggId i))) := rfl

lemma chickenEggStep_line_seat (delta : ℚ) (o : UpdateOracle) (i : Nat) (c : Chicken) :
    ((chickenEggStep delta o i c).1).line = c.line ∧
    ((chickenEggStep delta o i c).1).seat = c.seat := by
  rw [chickenEggStep_eq]
  split <;> exact ⟨rfl, rfl⟩

lemma updateChickenEggs_chickens (delta : ℚ) (o : UpdateOracle) (st : GameModel) :
    (updateChickenEggs delta o st).chickens =
      st.chickens.enum.map fun p => (chickenEggStep delta o p.1 p.2).1 := by
  show (st.chickens.enum.map fun p => chickenEggStep delta o p.1 p.2).map (fun p => p.1) = _
  rw [List.map_map]
  rfl

lemma updateChickenEggs_seatInv (delta : ℚ) (o : UpdateOracle) (st : GameModel)
    (h : seatInv st) : seatInv (updateChickenEggs delta o st) := by
  unfold seatInv at *
  rw [updateChickenEggs_chickens]
  rw [List.pairwise_iff_get] at h ⊢
  intro i j hij
  have hlen : (st.chickens.enum.map fun p => (chickenEggStep delta o p.1 p.2).1).length =
      st.chickens.length := by
    rw [List.length_map, List.enum_length]
  have hi : i.1 < st.chickens.length := by rw [← hlen]; exact i.2
  have hj : j.1 < st.chickens.length := by rw [← hlen]; exact j.2
  have hgi : (st.chickens.enum.map fun p => (chickenEggStep delta o p.1 p.2).1).get i =
      (chickenEggStep delta o i.1 (st.chickens.get ⟨i.1, hi⟩)).1 := by
    simp [List.get_eq_getElem, List.getElem_map, List.getElem_enum]
  have hgj : (st.chickens.enum.map fun p => (chickenEggStep delta o p.1 p.2).1).get j =
      (chickenEggStep delta o j.1 (st.chickens.get ⟨j.1, hj⟩)).1 := by
    simp [List.get_eq_getElem, List.getElem_map, List.getElem_enum]
  rw [hgi, hgj]
  have hp := h ⟨i.1, hi⟩ ⟨j.1, hj⟩ hij
  have h1 := chickenEggStep_line_seat delta o i.1 (st.chickens.get ⟨i.1, hi⟩)
  have h2 := chickenEggStep_line_seat delta o j.1 (st.chickens.get ⟨j.1, hj⟩)
  unfold seatNe at *
  rw [h1.1, h1.2, h2.1, h2.2]
  exact hp

lemma updateEggs_chickens (delta : ℚ) (st : GameModel) :
    (updateEggs delta st).chickens = st.chickens :=
  (eggFold_frame delta st.eggs st []).1

lemma markShot_mem (id : String) : ∀ (l : List Chicken), ∀ b ∈ markShot id l,
    ∃ b0 ∈ l, b.line = b0.line ∧ b.seat = b0.seat := by
  intro l
  induction l with
  | nil => intro b hb; simp [markShot] at hb
  | cons c rest ih =>
    intro b hb
    simp only [markShot] at hb
    by_cases hc : c.id = id
    · rw [if_pos hc] at hb
      rcases List.mem_cons.mp hb with h1 | h2
      · exact ⟨c, List.mem_cons_self c rest, by rw [h1]; exact ⟨rfl, rfl⟩⟩
      · exact ⟨b, List.mem_cons_of_mem c h2, rfl, rfl⟩
    · rw [if_neg hc] at hb
      rcases List.mem_cons.mp hb with h1 | h2
      · exact ⟨c, List.mem_cons_self c rest, by rw [h1]; exact ⟨rfl, rfl⟩⟩
      · obtain ⟨b0, hb0, heq⟩ := ih b h2
        exact ⟨b0, List.mem_cons_of_mem c hb0, heq⟩

lemma markShot_pairwise (id : String) : ∀ l : List Chicken,
    l.Pairwise seatNe → (markShot id l).Pairwise seatNe := by
  intro l
  induction l with
  | nil => intro _; simp [markShot]
  | cons c rest ih =>
    intro h
    rw [List.pairwise_cons] at h
    obtain ⟨hc_all, hrest⟩ := h
    simp only [markShot]
    by_cases hc : c.id = id
    · rw [if_pos hc, List.pairwise_cons]
      exact ⟨fun b hb => hc_all b hb, hrest⟩
    · rw [if_neg hc, List.pairwise_cons]
      refine ⟨?_, ih hrest⟩
      intro b hb
      obtain ⟨b0, hb0, h1, h2⟩ := markShot_mem id rest b hb
      have hcb := hc_all b0 hb0
      unfold seatNe at *
      intro hcon
      exact hcb ⟨h1 ▸ hcon.1, h2 ▸ hcon.2⟩

lemma shootChicken_seatInv (id eggIdStr : String) (st : GameModel)
    (h : seatInv st) : seatInv (shootChicken id eggIdStr st) := by
  unfold shootChicken
  cases st.chickens.find? (fun item => item.id = id) with
  | none => exact h
  | some chicken =>
    unfold seatInv at *
    show (markShot id st.chickens).Pairwise seatNe
    exact markShot_pairwise id st.chickens h

lemma removeChicken_seatInv (id : String) (st : GameModel) (h : seatInv st) :
    seatInv (removeChicken id st) := by
  unfold seatInv at *
  exact h.filter _

lemma updateWolf_chickens (delta : ℚ) (st : GameModel) :
    (updateWolf delta st).chickens = st.chickens := rfl

lemma update_seatInv (now : ℚ) (o : UpdateOracle) (st : GameModel) (h : seatInv st) :
    seatInv (update now o st) := by
  rw [update_eq]
  split
  · exact h
  · apply seatInv_of_chickens_eq (updateWolf_chickens _ _)
    apply seatInv_of_chickens_eq (updateEggs_chickens _ _)
    apply updateChickenEggs_seatInv
    apply updateChickenSpawns_seatInv
    exact h

lemma spawnFold_seatInv (o : InitOracle) (is : List Nat) :
    ∀ st : GameModel, seatInv st →
      seatInv (is.foldl (fun st i =>
        spawnRandomChicken (o.seatDraw i) (o.delayDraw i) (o.idDraw i) st) st) := by
  induction is with
  | nil => intro st h; exact h
  | cons j js ih =>
    intro st h
    rw [List.foldl_cons]
    exact ih _ (spawnRandomChicken_seatInv (o.seatDraw j) (o.delayDraw j) (o.idDraw j) st h)

lemma seedInitialChickens_seatInv (o : InitOracle) (st : GameModel) (h : seatInv st) :
    seatInv (seedInitialChickens o st) := by
  have hpre : seatInv (seedSpawnPhase o st) :=
    spawnFold_seatInv o (List.range (⌊randomBetween MIN_INITIAL_CHICKENS
      (MAX_INITIAL_CHICKENS + 1) o.countDraw⌋).toNat) st h
  rcases seedInitialChickens_cases o st with heq | ⟨r, heq⟩ <;> rw [heq]
  · exact hpre
  · unfold seatInv at *
    show ((seedSpawnPhase o st).chickens.map _).Pairwise seatNe
    exact pairwise_seat_map _ _ (fun c => ⟨rfl, rfl⟩) hpre

lemma initModel_seatInv (now : ℚ) (o : InitOracle) : seatInv (initModel now o) := by
  apply seedInitialChickens_seatInv
  unfold seatInv
  exact List.Pairwise.nil

lemma reachable_seatInv (s : GameModel) (h : Reachable s) : seatInv s := by
  induction h with
  | init now o => exact initModel_seatInv now o
  | step s op _ ih =>
    cases op with
    | update now o => exact update_seatInv now o s ih
    | removeChicken id => exact removeChicken_seatInv id s ih
    | removeEgg id => exact seatInv_of_chickens_eq rfl ih
    | shootChicken id e => exact shootChicken_seatInv id e s ih
    | reset now o => exact initModel_seatInv now o

/-- C3: in every reachable engine state no two chickens occupy the same
(line, seat) pair: every operation preserves this because the only
creation path picks a seat from the currently unoccupied ones. -/
theorem C3_no_seat_collision (s : GameModel) (h : Reachable s) :
    s.chickens.Pairwise fun a b => ¬(a.line = b.line ∧ a.seat = b.seat) :=
  reachable_seatInv s h

/-- Witness for C3 at a freshly constructed engine. -/
theorem C3_witness :
    (initModel 0 sampleInitOracle).chickens.Pairwise
      fun a b => ¬(a.line = b.line ∧ a.seat = b.seat) :=
  C3_no_seat_collision (initModel 0 sampleInitOracle) (Reachable.init 0 sampleInitOracle)

end Shooter
